import Mathlib

/-!
Verification of the acquisition core of `download_satellite_image.py`
(function `download_netcdf`), shallowly embedded in Lean.

Time instants and intervals are modelled as integer minutes (the script
works at minute granularity: hourly steps, five-minute window margins).
-/

namespace FogDownload

/-! ### Time-Step Planner (source lines 37-42)

The source is the loop

    time_steps = []
    current_time = start
    while current_time < end:
        time_steps.append(current_time)
        current_time = current_time + step

with no validation of `start`, `end` or `step` anywhere in the file.
The loop is embedded with explicit fuel; `none` models a loop that has
not terminated within the given fuel (which, as proved below, happens
exactly on the inputs where the Python loop runs forever).
-/

def timeStepsFuel : Nat → Int → Int → Int → Option (List Int)
  | 0, current, endT, _ =>
      if current < endT then none else some []
  | fuel + 1, current, endT, step =>
      if current < endT then
        (timeStepsFuel fuel (current + step) endT step).map (current :: ·)
      else some []

/-- The planner: `(end - start).toNat` iterations of fuel suffice for any
positive `step`, since each iteration advances `current` by at least 1. -/
def timeSteps (start endT step : Int) : Option (List Int) :=
  timeStepsFuel (endT - start).toNat start endT step

lemma timeStepsFuel_of_ge (fuel : Nat) (current endT step : Int)
    (h : endT ≤ current) : timeStepsFuel fuel current endT step = some [] := by
  cases fuel with
  | zero => simp [timeStepsFuel, not_lt.mpr h]
  | succ n => simp [timeStepsFuel, not_lt.mpr h]

lemma timeStepsFuel_nonpos_step (step : Int) (hstep : step ≤ 0) (endT : Int) :
    ∀ fuel current, current < endT →
      timeStepsFuel fuel current endT step = none := by
  intro fuel
  induction fuel with
  | zero => intro current h; simp [timeStepsFuel, h]
  | succ n ih =>
      intro current h
      have h2 : current + step < endT := by omega
      simp [timeStepsFuel, h, ih (current + step) h2]

/-- Closed form of the loop for positive step: enough fuel yields the
arithmetic progression of length `⌈(endT - current)/step⌉`
(computed in ℕ as `(d + s - 1) / s`). -/
lemma timeStepsFuel_pos_step (step : Int) (hstep : 0 < step) (endT : Int) :
    ∀ fuel current, (endT - current).toNat ≤ fuel →
      timeStepsFuel fuel current endT step =
        some ((List.range (((endT - current).toNat + step.toNat - 1) / step.toNat)).map
          (fun i : Nat => current + (i : Int) * step)) := by
  intro fuel
  induction fuel with
  | zero =>
      intro current hf
      have h : endT ≤ current := by omega
      have hd : (endT - current).toNat = 0 := by omega
      rw [timeStepsFuel_of_ge _ _ _ _ h, hd]
      have hs : 0 < step.toNat := by omega
      have hc : (0 + step.toNat - 1) / step.toNat = 0 := Nat.div_eq_of_lt (by omega)
      rw [hc]
      simp
  | succ n ih =>
      intro current hf
      by_cases h : current < endT
      · have hrec : (endT - (current + step)).toNat ≤ n := by omega
        rw [timeStepsFuel]
        simp only [h, if_true]
        rw [ih (current + step) hrec]
        have hcount : ((endT - current).toNat + step.toNat - 1) / step.toNat =
            ((endT - (current + step)).toNat + step.toNat - 1) / step.toNat + 1 := by
          set d : Nat := (endT - current).toNat with hd
          set s : Nat := step.toNat with hs
          have hs1 : 1 ≤ s := by omega
          have hd1 : 1 ≤ d := by omega
          have hured : (endT - (current + step)).toNat = d - s := by omega
          rw [hured]
          by_cases hds : d ≤ s
          · have h1 : d - s = 0 := by omega
            rw [h1]
            have hlhs : (d + s - 1) / s = 1 := by
              apply Nat.div_eq_of_lt_le
              · omega
              · omega
            have hrhs : (0 + s - 1) / s = 0 := Nat.div_eq_of_lt (by omega)
            omega
          · have hsplit : d + s - 1 = ((d - s) + s - 1) + s := by omega
            rw [hsplit, Nat.add_div_right _ (by omega)]
        rw [hcount, List.range_succ_eq_map]
        simp only [List.map_cons, List.map_map, Option.map_some']
        congr 1
        congr 1
        · push_cast
          ring
        · apply List.map_congr_left
          intro i _
          simp only [Function.comp_apply]
          push_cast
          ring
      · rw [timeStepsFuel_of_ge _ _ _ _ (by omega)]
        have hd : (endT - current).toNat = 0 := by omega
        rw [hd]
        have hs : 0 < step.toNat := by omega
        have hc : (0 + step.toNat - 1) / step.toNat = 0 := Nat.div_eq_of_lt (by omega)
        rw [hc]
        simp

/-- Number of loop iterations for positive step: `⌈(endT - start) / step⌉`,
computed in ℕ as `(d + s - 1) / s`. -/
def plannedCount (start endT step : Int) : Nat :=
  ((endT - start).toNat + step.toNat - 1) / step.toNat

/-- The arithmetic progression `start, start + step, …` of `n` elements. -/
def plannedList (start step : Int) (n : Nat) : List Int :=
  (List.range n).map (fun i : Nat => start + (i : Int) * step)

lemma timeSteps_closed_form (start endT step : Int) (hstep : 0 < step) :
    timeSteps start endT step =
      some (plannedList start step (plannedCount start endT step)) :=
  timeStepsFuel_pos_step step hstep endT _ start le_rfl

lemma plannedList_length (start step : Int) (n : Nat) :
    (plannedList start step n).length = n := by
  simp [plannedList]

lemma plannedList_getElem (start step : Int) (n : Nat) (i : Nat)
    (hi : i < (plannedList start step n).length) :
    (plannedList start step n)[i] = start + (i : Int) * step := by
  simp [plannedList]

/-- C1 claims `start = end` raises an `InvalidRangeError`; the code has no
validation at all, and the planning loop simply runs zero iterations,
yielding the silent empty sequence the claim explicitly rules out. -/
theorem C1_counterexample : timeSteps 0 0 60 = some [] := by
  decide

/-- C1 (amended): the code performs no range validation and defines no
`InvalidRangeError`: for `start ≥ end` the planner silently produces the
empty time-step sequence (the run processes zero time steps, with no
error), and for `interval ≤ 0` with `start < end` the planning loop never
terminates (modelled as fuel exhaustion, `none`). -/
theorem C1_no_validation (start endT step : Int) :
    (endT ≤ start → timeSteps start endT step = some []) ∧
    (step ≤ 0 → start < endT → timeSteps start endT step = none) := by
  constructor
  · intro h
    exact timeStepsFuel_of_ge _ _ _ _ h
  · intro hs h
    exact timeStepsFuel_nonpos_step step hs endT _ start h

theorem C1_no_validation_witness :
    ((5 : Int) ≤ 5 → timeSteps 5 5 60 = some []) ∧
    ((0 : Int) ≤ 0 → (0 : Int) < 10 → timeSteps 0 10 0 = none) :=
  ⟨(C1_no_validation 5 5 60).1, (C1_no_validation 0 10 0).2⟩

/-- C4: for `interval > 0` and `start < end` the planner returns exactly
the progression `start, start + step, start + 2·step, …` of all instants
strictly before `end`: its length is `⌈(end - start) / step⌉`, its
elements are `start + i·step` (hence strictly increasing and evenly
spaced by `step`), its first element is `start`, and every element —
in particular the last — is strictly below `end`. -/
theorem C4_planner_correct (start endT step : Int)
    (hstep : 0 < step) (hlt : start < endT) :
    timeSteps start endT step =
      some (plannedList start step (plannedCount start endT step)) ∧
    (plannedList start step (plannedCount start endT step)).length =
      plannedCount start endT step ∧
    (∀ i : Nat, ∀ hi : i < (plannedList start step (plannedCount start endT step)).length,
      (plannedList start step (plannedCount start endT step))[i] =
        start + (i : Int) * step) ∧
    (plannedList start step (plannedCount start endT step)).head? = some start ∧
    (∀ x ∈ plannedList start step (plannedCount start endT step), x < endT) ∧
    (plannedList start step (plannedCount start endT step)).Pairwise (· < ·) ∧
    (∀ i : Nat, ∀ hi : i + 1 < (plannedList start step (plannedCount start endT step)).length,
      (plannedList start step (plannedCount start endT step))[i + 1] =
        (plannedList start step (plannedCount start endT step))[i] + step) := by
  have hd : (0 : Int) < endT - start := by omega
  have hdnat : 1 ≤ (endT - start).toNat := by omega
  have hsnat : 1 ≤ step.toNat := by omega
  have hnpos : 1 ≤ plannedCount start endT step := by
    unfold plannedCount
    rw [Nat.le_div_iff_mul_le (by omega)]
    omega
  have hbound : (plannedCount start endT step - 1) * step.toNat ≤
      (endT - start).toNat - 1 := by
    have hmul : plannedCount start endT step * step.toNat ≤
        (endT - start).toNat + step.toNat - 1 := Nat.div_mul_le_self _ _
    have hexp : (plannedCount start endT step - 1) * step.toNat =
        plannedCount start endT step * step.toNat - 1 * step.toNat :=
      (Nat.sub_mul _ _ _)
    omega
  refine ⟨timeSteps_closed_form start endT step hstep, plannedList_length _ _ _,
    fun i hi => plannedList_getElem _ _ _ i hi, ?_, ?_, ?_, ?_⟩
  · obtain ⟨m, hm⟩ := Nat.exists_eq_add_of_le hnpos
    rw [hm]
    unfold plannedList
    rw [add_comm 1 m, List.range_succ_eq_map]
    simp
  · intro x hx
    unfold plannedList at hx
    obtain ⟨i, hi, rfl⟩ := List.mem_map.mp hx
    have hile : i ≤ plannedCount start endT step - 1 := by
      have := List.mem_range.mp hi
      omega
    have hmuln : i * step.toNat ≤ (endT - start).toNat - 1 :=
      le_trans (Nat.mul_le_mul_right _ hile) hbound
    have hstepcast : ((step.toNat : Int)) = step := Int.toNat_of_nonneg (by omega)
    have hcast : (i : Int) * step ≤ ((endT - start).toNat : Int) - 1 := by
      calc (i : Int) * step = ((i * step.toNat : Nat) : Int) := by
            push_cast
            rw [hstepcast]
          _ ≤ ((endT - start).toNat : Int) - 1 := by
            have := hmuln
            omega
    have hdcast : (((endT - start).toNat : Int)) = endT - start :=
      Int.toNat_of_nonneg (by omega)
    omega
  · unfold plannedList
    rw [List.pairwise_map]
    apply List.Pairwise.imp ?_ (List.pairwise_lt_range _)
    intro a b hab
    have : (a : Int) < (b : Int) := by exact_mod_cast hab
    nlinarith
  · intro i hi
    rw [plannedList_getElem _ _ _ (i + 1) hi,
      plannedList_getElem _ _ _ i (by omega)]
    push_cast
    ring

theorem C4_planner_correct_witness :
    (0 : Int) < 3 ∧ (0 : Int) < 10 ∧
    timeSteps 0 10 3 = some (plannedList 0 3 (plannedCount 0 10 3)) ∧
    plannedList 0 3 (plannedCount 0 10 3) = [0, 3, 6, 9] :=
  ⟨by decide, by decide, (C4_planner_correct 0 10 3 (by decide) (by decide)).1,
    by decide⟩

/-! ### Search window (source lines 93-94)

    dtstart = current_time.replace(minute=0, second=0) - datetime.timedelta(minutes=5)
    dtend   = current_time.replace(minute=0, second=0) + datetime.timedelta(minutes=5)

Instants are minutes; `replace(minute=0, second=0)` truncates an instant
to its containing hour, i.e. subtracts `t % 60` (Python `%` and Lean's
`Int` `%` agree: both return a remainder in `[0, 60)`). -/

def hourFloor (t : Int) : Int := t - t % 60

def searchWindow (t : Int) : Int × Int := (hourFloor t - 5, hourFloor t + 5)

/-- C6 claims the window is `(t - 5, t + 5)` and brackets the TimeStep
`t`; the code truncates `t` to the hour first, so for the TimeStep at
minute 30 of an hour the window is `(h - 5, h + 5)` around the hour `h`,
which is not `(t - 5, t + 5)` and does not contain `t`. -/
theorem C6_counterexample :
    searchWindow 30 ≠ (30 - 5, 30 + 5) ∧
    ¬((searchWindow 30).1 ≤ 30 ∧ 30 ≤ (searchWindow 30).2) := by
  decide

/-- C6 (amended): the search window is `(hourFloor t - 5, hourFloor t + 5)`
where `hourFloor` truncates the TimeStep to its hour (the code zeroes the
minute and second fields before applying the ±5 minute margin). Its start
is always strictly before its end and both endpoints are deterministic
functions of the TimeStep, but it brackets the TimeStep itself only when
the TimeStep lies at most 5 minutes past the hour; in particular for the
on-the-hour TimeSteps the script plans by default it equals
`(t - 5, t + 5)` and does bracket `t`. -/
theorem C6_window (t : Int) :
    searchWindow t = (hourFloor t - 5, hourFloor t + 5) ∧
    (searchWindow t).1 < (searchWindow t).2 ∧
    (t % 60 = 0 →
      searchWindow t = (t - 5, t + 5) ∧
      (searchWindow t).1 ≤ t ∧ t ≤ (searchWindow t).2) ∧
    ((searchWindow t).1 ≤ t ∧ t ≤ (searchWindow t).2 ↔ t % 60 ≤ 5) := by
  refine ⟨rfl, ?_, ?_, ?_⟩
  · simp only [searchWindow, hourFloor]
    omega
  · intro h
    simp only [searchWindow, hourFloor, Prod.mk.injEq]
    omega
  · simp only [searchWindow, hourFloor]
    omega

theorem C6_window_witness :
    ((60 : Int) % 60 = 0 →
      searchWindow 60 = (60 - 5, 60 + 5) ∧
      (searchWindow 60).1 ≤ 60 ∧ (60 : Int) ≤ (searchWindow 60).2) ∧
    ((searchWindow 60).1 ≤ 60 ∧ (60 : Int) ≤ (searchWindow 60).2 ↔
      (60 : Int) % 60 ≤ 5) :=
  ⟨(C6_window 60).2.2.1, (C6_window 60).2.2.2⟩

/-! ### Job polling loop (source lines 107-170)

One TimeStep with a found product: the script submits a customisation
(job), then loops polling its status. Statuses are the eight values of
the remote interface. Jobs are identified by their submission index
(1 for the first submission of the TimeStep); `outputs j` is the remote
artifact list of job `j`, and the DONE branch downloads those outputs
whose name ends in `".nc"`. The stub status script lists the successive
poll results; the loop is embedded with fuel (`none` = the loop did not
reach DONE within the fuel / script). The recorded `sleeps` are the
durations of the `time.sleep(sleep_time)` calls actually executed, in
order; the DONE and error-class branches leave the loop body before the
sleep (`break` / `continue`), so they record none. -/

inductive Status
  | QUEUED
  | RUNNING
  | DONE
  | ERROR
  | FAILED
  | DELETED
  | KILLED
  | INACTIVE
deriving DecidableEq, Repr

/-- The error-class statuses of source line 146. -/
def errorClass : List Status :=
  [Status.ERROR, Status.FAILED, Status.DELETED, Status.KILLED, Status.INACTIVE]

/-- The filter `[file for file in outputs if file.endswith(".nc")]` of
source line 135 (file names as strings, suffix test on the characters). -/
def ncFiles (outputs : List String) : List String :=
  outputs.filter (fun f => List.isSuffixOf ".nc".data f.data)

structure PollState where
  sleepTime : Nat
  subs : Nat
  ledger : List (Nat × Status)
  sleeps : List Nat
  deletes : List Nat
  downloadEvents : List (Nat × List String)
deriving DecidableEq, Repr

/-- State on entering the polling loop: `sleep_time = 5` (line 111), one
job submitted so far (line 108), nothing recorded yet. -/
def initPollState : PollState :=
  { sleepTime := 5, subs := 1, ledger := [], sleeps := [], deletes := [],
    downloadEvents := [] }

inductive PollNext
  | finished (st : PollState)
  | again (st : PollState)

/-- The update `sleep_time = min(sleep_time + 1, 10)` applied on a QUEUED
observation, leaving the value unchanged otherwise (source lines 161-162). -/
def nextSleep (status : Status) (s : Nat) : Nat :=
  if status = Status.QUEUED then min (s + 1) 10 else s

/-- One iteration of the `while True` loop (lines 114-164), given the
polled status. DONE: download the current job's `.nc` outputs, `break`
(the post-loop cleanup of lines 168-170 then deletes the job).
Error-class: append the failure record `(job, status)` to the ledger,
delete the failed job, submit a fresh one, `continue` — no sleep.
Otherwise: update the sleep value, then sleep. -/
def pollBody (outputs : Nat → List String) (st : PollState) (status : Status) :
    PollNext :=
  if status = Status.DONE then
    PollNext.finished { st with
      downloadEvents := st.downloadEvents ++ [(st.subs, ncFiles (outputs st.subs))],
      deletes := st.deletes ++ [st.subs] }
  else if status ∈ errorClass then
    PollNext.again { st with
      ledger := st.ledger ++ [(st.subs, status)],
      deletes := st.deletes ++ [st.subs],
      subs := st.subs + 1 }
  else
    PollNext.again { st with
      sleepTime := nextSleep status st.sleepTime,
      sleeps := st.sleeps ++ [nextSleep status st.sleepTime] }

def pollLoop (outputs : Nat → List String) :
    Nat → List Status → PollState → Option PollState
  | 0, _, _ => none
  | _ + 1, [], _ => none
  | fuel + 1, status :: rest, st =>
    match pollBody outputs st status with
    | PollNext.finished final => some final
    | PollNext.again st2 => pollLoop outputs fuel rest st2

/-- C5: a job that reports an error-class status and whose resubmission
reaches DONE yields exactly one ledger entry `(failed job, status)`, two
submissions in total, deletion of the failed job (followed by the normal
cleanup deletion of the successful one), and exactly one download event,
taking the second job's `.nc` outputs only. -/
theorem C5_retry_then_done (outputs : Nat → List String) (e : Status)
    (he : e ∈ errorClass) :
    ∃ final : PollState,
      pollLoop outputs 2 [e, Status.DONE] initPollState = some final ∧
      final.ledger = [(1, e)] ∧
      final.subs = 2 ∧
      final.deletes = [1, 2] ∧
      final.downloadEvents = [(2, ncFiles (outputs 2))] := by
  simp only [errorClass, List.mem_cons, List.not_mem_nil, or_false] at he
  rcases he with rfl | rfl | rfl | rfl | rfl <;>
    exact ⟨_, rfl, rfl, rfl, rfl, rfl⟩

theorem C5_retry_then_done_witness :
    Status.FAILED ∈ errorClass ∧
    ∃ final : PollState,
      pollLoop (fun _ => ["img.nc", "log.txt"]) 2 [Status.FAILED, Status.DONE]
        initPollState = some final ∧
      final.ledger = [(1, Status.FAILED)] ∧
      final.subs = 2 ∧
      final.deletes = [1, 2] ∧
      final.downloadEvents =
        [(2, ncFiles ((fun _ : Nat => ["img.nc", "log.txt"]) 2))] :=
  ⟨by decide,
    C5_retry_then_done (fun _ => ["img.nc", "log.txt"]) Status.FAILED (by decide)⟩

/-- C9: an error-class status leaves the poll-wait untouched (no reset to
5 for the fresh job) and skips the sleep: the recorded sleeps do not
change, and the loop proceeds directly to polling the replacement job
with the rest of the status script. -/
theorem C9_resubmit_keeps_backoff (outputs : Nat → List String)
    (st : PollState) (e : Status) (he : e ∈ errorClass) :
    ∃ st2 : PollState,
      pollBody outputs st e = PollNext.again st2 ∧
      st2.sleepTime = st.sleepTime ∧
      st2.sleeps = st.sleeps ∧
      st2.subs = st.subs + 1 ∧
      st2.deletes = st.deletes ++ [st.subs] ∧
      (∀ fuel : Nat, ∀ rest : List Status,
        pollLoop outputs (fuel + 1) (e :: rest) st =
          pollLoop outputs fuel rest st2) := by
  simp only [errorClass, List.mem_cons, List.not_mem_nil, or_false] at he
  rcases he with rfl | rfl | rfl | rfl | rfl <;>
    exact ⟨_, rfl, rfl, rfl, rfl, rfl, fun _ _ => rfl⟩

theorem C9_resubmit_keeps_backoff_witness :
    Status.ERROR ∈ errorClass ∧
    ∃ st2 : PollState,
      pollBody (fun _ => []) initPollState Status.ERROR = PollNext.again st2 ∧
      st2.sleepTime = initPollState.sleepTime ∧
      st2.sleeps = initPollState.sleeps ∧
      st2.subs = initPollState.subs + 1 ∧
      st2.deletes = initPollState.deletes ++ [initPollState.subs] ∧
      (∀ fuel : Nat, ∀ rest : List Status,
        pollLoop (fun _ => []) (fuel + 1) (Status.ERROR :: rest) initPollState =
          pollLoop (fun _ => []) fuel rest st2) :=
  ⟨by decide, C9_resubmit_keeps_backoff (fun _ => []) initPollState Status.ERROR
    (by decide)⟩

/-- Invariant carried by the polling loop: the wait value stays in
`[5, 10]`, and the waits already performed are nondecreasing, within
`[5, 10]`, and below the current wait value. -/
def sleepInv (st : PollState) : Prop :=
  5 ≤ st.sleepTime ∧ st.sleepTime ≤ 10 ∧
  List.Sorted (· ≤ ·) st.sleeps ∧
  ∀ x ∈ st.sleeps, 5 ≤ x ∧ x ≤ 10 ∧ x ≤ st.sleepTime

lemma nextSleep_bounds (status : Status) (s : Nat) (h5 : 5 ≤ s) (h10 : s ≤ 10) :
    5 ≤ nextSleep status s ∧ nextSleep status s ≤ 10 ∧ s ≤ nextSleep status s := by
  unfold nextSleep
  split_ifs <;> omega

lemma pollBody_inv (outputs : Nat → List String) (st : PollState)
    (status : Status) (h : sleepInv st) :
    (∀ st2, pollBody outputs st status = PollNext.finished st2 → sleepInv st2) ∧
    (∀ st2, pollBody outputs st status = PollNext.again st2 → sleepInv st2) := by
  obtain ⟨h5, h10, hsort, hmem⟩ := h
  obtain ⟨n5, n10, nmono⟩ := nextSleep_bounds status st.sleepTime h5 h10
  constructor
  · intro st2 heq
    unfold pollBody at heq
    split_ifs at heq with h1 h2
    cases heq
    exact ⟨h5, h10, hsort, hmem⟩
  · intro st2 heq
    unfold pollBody at heq
    split_ifs at heq with h1 h2
    · cases heq
      exact ⟨h5, h10, hsort, hmem⟩
    · cases heq
      refine ⟨n5, n10, ?_, ?_⟩
      · rw [List.Sorted, List.pairwise_append]
        refine ⟨hsort, by simp, ?_⟩
        intro x hx y hy
        simp only [List.mem_singleton] at hy
        subst hy
        exact le_trans (hmem x hx).2.2 nmono
      · intro x hx
        rcases List.mem_append.mp hx with hx1 | hx1
        · obtain ⟨a, b, c⟩ := hmem x hx1
          exact ⟨a, b, le_trans c nmono⟩
        · simp only [List.mem_singleton] at hx1
          subst hx1
          exact ⟨n5, n10, le_rfl⟩

lemma pollLoop_inv (outputs : Nat → List String) :
    ∀ (fuel : Nat) (script : List Status) (st final : PollState),
      sleepInv st → pollLoop outputs fuel script st = some final →
      sleepInv final := by
  intro fuel
  induction fuel with
  | zero =>
      intro script st final _ h
      simp [pollLoop] at h
  | succ n ih =>
      intro script st final hinv h
      cases script with
      | nil => simp [pollLoop] at h
      | cons status rest =>
          rw [pollLoop] at h
          cases hb : pollBody outputs st status with
          | finished f =>
              rw [hb] at h
              have hf : f = final := Option.some.inj h
              subst hf
              exact (pollBody_inv outputs st status hinv).1 _ hb
          | again st2 =>
              rw [hb] at h
              exact ih rest st2 final
                ((pollBody_inv outputs st status hinv).2 st2 hb) h

/-- C7: the poll-wait starts at 5, a QUEUED observation raises it by 1 up
to the cap of 10, a RUNNING observation leaves it unchanged, and over any
complete polling run from the initial state every wait performed lies in
`[5, 10]` with the performed waits nondecreasing. -/
theorem C7_backoff_invariant (outputs : Nat → List String) (fuel : Nat)
    (script : List Status) (final : PollState)
    (hrun : pollLoop outputs fuel script initPollState = some final) :
    initPollState.sleepTime = 5 ∧
    (∀ st : PollState, ∃ st2 : PollState,
      pollBody outputs st Status.QUEUED = PollNext.again st2 ∧
      st2.sleepTime = min (st.sleepTime + 1) 10) ∧
    (∀ st : PollState, ∃ st2 : PollState,
      pollBody outputs st Status.RUNNING = PollNext.again st2 ∧
      st2.sleepTime = st.sleepTime) ∧
    List.Sorted (· ≤ ·) final.sleeps ∧
    (∀ x ∈ final.sleeps, 5 ≤ x ∧ x ≤ 10) ∧
    5 ≤ final.sleepTime ∧ final.sleepTime ≤ 10 := by
  have hinit : sleepInv initPollState := by
    refine ⟨by decide, by decide, by simp [initPollState], by simp [initPollState]⟩
  have hfin := pollLoop_inv outputs fuel script initPollState final hinit hrun
  exact ⟨rfl, fun st => ⟨_, rfl, rfl⟩, fun st => ⟨_, rfl, rfl⟩,
    hfin.2.2.1,
    fun x hx => ⟨(hfin.2.2.2 x hx).1, (hfin.2.2.2 x hx).2.1⟩,
    hfin.1, hfin.2.1⟩

theorem C7_backoff_invariant_witness :
    pollLoop (fun _ => []) 5
        [Status.QUEUED, Status.QUEUED, Status.RUNNING, Status.DONE]
        initPollState =
      some { sleepTime := 7, subs := 1, ledger := [], sleeps := [6, 7, 7],
             deletes := [1], downloadEvents := [(1, [])] } ∧
    (initPollState.sleepTime = 5 ∧
    (∀ st : PollState, ∃ st2 : PollState,
      pollBody (fun _ => []) st Status.QUEUED = PollNext.again st2 ∧
      st2.sleepTime = min (st.sleepTime + 1) 10) ∧
    (∀ st : PollState, ∃ st2 : PollState,
      pollBody (fun _ => []) st Status.RUNNING = PollNext.again st2 ∧
      st2.sleepTime = st.sleepTime) ∧
    List.Sorted (· ≤ ·) [6, 7, 7] ∧
    (∀ x ∈ [6, 7, 7], 5 ≤ x ∧ x ≤ 10) ∧
    5 ≤ (7 : Nat) ∧ (7 : Nat) ≤ 10) :=
  ⟨by decide, C7_backoff_invariant (fun _ => []) 5
    [Status.QUEUED, Status.QUEUED, Status.RUNNING, Status.DONE]
    { sleepTime := 7, subs := 1, ledger := [], sleeps := [6, 7, 7],
      deletes := [1], downloadEvents := [(1, [])] } (by decide)⟩

/-! ### The per-TimeStep run loop (source lines 44-197)

A TimeStep is abstracted to its calendar fields (`year`, `month`, `day`
— the code derives the bucket keys `f"{t.year}-{t.month:02d}"` and
`f"{t.year}-{t.month:02d}-{t.day:02d}"` from them), the wall-clock
duration its processing takes, and the outcome of its remote
interaction: search finds nothing (`continue` at line 105), the job
eventually completes after `retries` error-class retries, or one of the
three `except` clauses of lines 172-177 catches an exception. The
wall clock advances only while a step is being processed. `month_times`
is a `defaultdict(float)` bumped with `+=` (line 182); `day_times` is
assigned with `=` at each day change (line 79) and once after the loop
(line 192). -/

inductive StepBehaviour
  | noProduct
  | completes (retries : Nat)
  | transportErr
  | remoteErr
  | unexpectedErr
deriving DecidableEq, Repr

structure Step where
  year : Nat
  month : Nat
  day : Nat
  dur : Nat
  behaviour : StepBehaviour
deriving DecidableEq, Repr

def monthKey (s : Step) : Nat × Nat := (s.year, s.month)

def dayKey (s : Step) : Nat × Nat × Nat := (s.year, s.month, s.day)

/-- The month a day key belongs to (the prefix of the day label). -/
def monthOfDay (k : Nat × Nat × Nat) : Nat × Nat := (k.1, k.2.1)

/-- `dict[k] += v` on a `defaultdict(float)`, as an association list. -/
def bumpTime {K : Type} [DecidableEq K] : List (K × Nat) → K → Nat → List (K × Nat)
  | [], k, v => [(k, v)]
  | (k0, v0) :: rest, k, v =>
      if k0 = k then (k0, v0 + v) :: rest else (k0, v0) :: bumpTime rest k v

/-- `dict[k] = v`, as an association list. -/
def setTime {K : Type} [DecidableEq K] : List (K × Nat) → K → Nat → List (K × Nat)
  | [], k, v => [(k, v)]
  | (k0, v0) :: rest, k, v =>
      if k0 = k then (k0, v) :: rest else (k0, v0) :: setTime rest k v

/-- Dictionary lookup, 0 when absent (`defaultdict` read). -/
def getTime {K : Type} [DecidableEq K] : List (K × Nat) → K → Nat
  | [], _ => 0
  | (k0, v0) :: rest, k => if k0 = k then v0 else getTime rest k

/-- Sum of all values of a timing dictionary. -/
def totalTime {K : Type} (l : List (K × Nat)) : Nat := (l.map Prod.snd).sum

structure RunState where
  clock : Nat
  openDay : Option (Nat × Nat × Nat)
  dayStart : Nat
  monthTimes : List ((Nat × Nat) × Nat)
  dayTimes : List ((Nat × Nat × Nat) × Nat)
  overall : Nat
  ledgerLen : Nat
  submitted : Nat
  downloadedSteps : Nat
deriving DecidableEq, Repr

def initRunState : RunState :=
  { clock := 0, openDay := none, dayStart := 0, monthTimes := [], dayTimes := [],
    overall := 0, ledgerLen := 0, submitted := 0, downloadedSteps := 0 }

/-- Day-change handling at the top of each iteration (lines 75-88): on
the first step, or when the day key differs from the open day's, the
elapsed time since `day_start_time` is written to `day_times` under the
NEW day's key (source line 79 runs after `day_key` has been recomputed
for the current step), and the day clock restarts. -/
def dayPhase (st : RunState) (s : Step) : RunState :=
  match st.openDay with
  | none => { st with openDay := some (dayKey s), dayStart := st.clock }
  | some pd =>
      if dayKey s ≠ pd then
        { st with
          dayTimes := setTime st.dayTimes (dayKey s) (st.clock - st.dayStart),
          openDay := some (dayKey s), dayStart := st.clock }
      else st

/-- The body from `step_start_time = time.time()` (line 90) to the
progress updates (lines 179-187). A no-product step updates the progress
counter inside its branch and then `continue`s, skipping the
`month_times[month_key] += step_time` of line 182; every other outcome
falls through to lines 179-187. A `completes retries` step submitted
`1 + retries` jobs, appended `retries` ledger records, and downloaded
once; an exception outcome (any of the three `except` clauses, raised at
the search) submitted nothing and is contained at this boundary. -/
def stepPhase (st : RunState) (s : Step) : RunState :=
  let stepStart := st.clock
  let st2 : RunState := { st with clock := st.clock + s.dur }
  match s.behaviour with
  | StepBehaviour.noProduct =>
      { st2 with overall := st2.overall + 1 }
  | StepBehaviour.completes r =>
      { st2 with
        ledgerLen := st2.ledgerLen + r,
        submitted := st2.submitted + 1 + r,
        downloadedSteps := st2.downloadedSteps + 1,
        monthTimes := bumpTime st2.monthTimes (monthKey s) (st2.clock - stepStart),
        overall := st2.overall + 1 }
  | StepBehaviour.transportErr =>
      { st2 with
        monthTimes := bumpTime st2.monthTimes (monthKey s) (st2.clock - stepStart),
        overall := st2.overall + 1 }
  | StepBehaviour.remoteErr =>
      { st2 with
        monthTimes := bumpTime st2.monthTimes (monthKey s) (st2.clock - stepStart),
        overall := st2.overall + 1 }
  | StepBehaviour.unexpectedErr =>
      { st2 with
        monthTimes := bumpTime st2.monthTimes (monthKey s) (st2.clock - stepStart),
        overall := st2.overall + 1 }

def runStep (st : RunState) (s : Step) : RunState := stepPhase (dayPhase st s) s

/-- The final `day_times[day_key] = ...` of lines 190-193, executed once
after the loop for the still-open day. -/
def closeFinalDay (st : RunState) : RunState :=
  match st.openDay with
  | none => st
  | some pd =>
      { st with dayTimes := setTime st.dayTimes pd (st.clock - st.dayStart) }

/-- The whole loop over the planned steps, followed by the final day
recording. -/
def runAll (steps : List Step) : RunState :=
  closeFinalDay (steps.foldl runStep initRunState)

lemma dayPhase_spec (st : RunState) (s : Step) :
    (dayPhase st s).clock = st.clock ∧
    (dayPhase st s).monthTimes = st.monthTimes ∧
    (dayPhase st s).overall = st.overall ∧
    (dayPhase st s).ledgerLen = st.ledgerLen ∧
    (dayPhase st s).submitted = st.submitted ∧
    (dayPhase st s).downloadedSteps = st.downloadedSteps := by
  unfold dayPhase
  cases st.openDay with
  | none => exact ⟨rfl, rfl, rfl, rfl, rfl, rfl⟩
  | some pd =>
      dsimp only
      split_ifs <;> exact ⟨rfl, rfl, rfl, rfl, rfl, rfl⟩

lemma closeFinalDay_spec (st : RunState) :
    (closeFinalDay st).overall = st.overall ∧
    (closeFinalDay st).monthTimes = st.monthTimes ∧
    (closeFinalDay st).ledgerLen = st.ledgerLen ∧
    (closeFinalDay st).submitted = st.submitted ∧
    (closeFinalDay st).downloadedSteps = st.downloadedSteps := by
  unfold closeFinalDay
  cases st.openDay <;> exact ⟨rfl, rfl, rfl, rfl, rfl⟩

lemma stepPhase_noProduct (st : RunState) (s : Step)
    (h : s.behaviour = StepBehaviour.noProduct) :
    stepPhase st s =
      { st with clock := st.clock + s.dur, overall := st.overall + 1 } := by
  unfold stepPhase
  rw [h]

lemma stepPhase_completes (st : RunState) (s : Step) (r : Nat)
    (h : s.behaviour = StepBehaviour.completes r) :
    stepPhase st s =
      { st with
        clock := st.clock + s.dur,
        ledgerLen := st.ledgerLen + r,
        submitted := st.submitted + 1 + r,
        downloadedSteps := st.downloadedSteps + 1,
        monthTimes := bumpTime st.monthTimes (monthKey s) s.dur,
        overall := st.overall + 1 } := by
  unfold stepPhase
  rw [h]
  dsimp only
  have hd : st.clock + s.dur - st.clock = s.dur := by omega
  rw [hd]

lemma stepPhase_transportErr (st : RunState) (s : Step)
    (h : s.behaviour = StepBehaviour.transportErr) :
    stepPhase st s =
      { st with
        clock := st.clock + s.dur,
        monthTimes := bumpTime st.monthTimes (monthKey s) s.dur,
        overall := st.overall + 1 } := by
  unfold stepPhase
  rw [h]
  dsimp only
  have hd : st.clock + s.dur - st.clock = s.dur := by omega
  rw [hd]

lemma stepPhase_remoteErr (st : RunState) (s : Step)
    (h : s.behaviour = StepBehaviour.remoteErr) :
    stepPhase st s =
      { st with
        clock := st.clock + s.dur,
        monthTimes := bumpTime st.monthTimes (monthKey s) s.dur,
        overall := st.overall + 1 } := by
  unfold stepPhase
  rw [h]
  dsimp only
  have hd : st.clock + s.dur - st.clock = s.dur := by omega
  rw [hd]

lemma stepPhase_unexpectedErr (st : RunState) (s : Step)
    (h : s.behaviour = StepBehaviour.unexpectedErr) :
    stepPhase st s =
      { st with
        clock := st.clock + s.dur,
        monthTimes := bumpTime st.monthTimes (monthKey s) s.dur,
        overall := st.overall + 1 } := by
  unfold stepPhase
  rw [h]
  dsimp only
  have hd : st.clock + s.dur - st.clock = s.dur := by omega
  rw [hd]

lemma stepPhase_overall (st : RunState) (s : Step) :
    (stepPhase st s).overall = st.overall + 1 := by
  unfold stepPhase
  cases s.behaviour <;> rfl

lemma totalTime_bumpTime {K : Type} [DecidableEq K] (l : List (K × Nat))
    (k : K) (v : Nat) : totalTime (bumpTime l k v) = totalTime l + v := by
  induction l with
  | nil => simp [bumpTime, totalTime]
  | cons e rest ih =>
      obtain ⟨k0, v0⟩ := e
      unfold bumpTime
      split_ifs with h
      · simp only [totalTime, List.map_cons, List.sum_cons]
        omega
      · simp only [totalTime, List.map_cons, List.sum_cons] at ih ⊢
        omega

lemma stepPhase_monthTotal (st : RunState) (s : Step) :
    totalTime (stepPhase st s).monthTimes =
      totalTime st.monthTimes +
        (if s.behaviour = StepBehaviour.noProduct then 0 else s.dur) := by
  cases hb : s.behaviour
  · rw [stepPhase_noProduct st s hb]
    simp
  · rw [stepPhase_completes st s _ hb]
    simp [totalTime_bumpTime]
  · rw [stepPhase_transportErr st s hb]
    simp [totalTime_bumpTime]
  · rw [stepPhase_remoteErr st s hb]
    simp [totalTime_bumpTime]
  · rw [stepPhase_unexpectedErr st s hb]
    simp [totalTime_bumpTime]

lemma runStep_overall (st : RunState) (s : Step) :
    (runStep st s).overall = st.overall + 1 := by
  unfold runStep
  rw [stepPhase_overall, (dayPhase_spec st s).2.2.1]

lemma runStep_monthTotal (st : RunState) (s : Step) :
    totalTime (runStep st s).monthTimes =
      totalTime st.monthTimes +
        (if s.behaviour = StepBehaviour.noProduct then 0 else s.dur) := by
  unfold runStep
  rw [stepPhase_monthTotal, (dayPhase_spec st s).2.1]

lemma foldl_runStep_overall (steps : List Step) :
    ∀ st : RunState, (steps.foldl runStep st).overall = st.overall + steps.length := by
  induction steps with
  | nil => intro st; simp
  | cons s rest ih =>
      intro st
      simp only [List.foldl_cons, List.length_cons]
      rw [ih, runStep_overall]
      omega

lemma foldl_runStep_monthTotal (steps : List Step) :
    ∀ st : RunState, totalTime ((steps.foldl runStep st).monthTimes) =
      totalTime st.monthTimes +
        (steps.map (fun t =>
          if t.behaviour = StepBehaviour.noProduct then 0 else t.dur)).sum := by
  induction steps with
  | nil => intro st; simp
  | cons s rest ih =>
      intro st
      simp only [List.foldl_cons, List.map_cons, List.sum_cons]
      rw [ih, runStep_monthTotal]
      omega

lemma runAll_overall (steps : List Step) :
    (runAll steps).overall = steps.length := by
  unfold runAll
  rw [(closeFinalDay_spec _).1, foldl_runStep_overall]
  simp [initRunState]

lemma runAll_monthTotal (steps : List Step) :
    totalTime (runAll steps).monthTimes =
      (steps.map (fun t =>
        if t.behaviour = StepBehaviour.noProduct then 0 else t.dur)).sum := by
  unfold runAll
  rw [(closeFinalDay_spec _).2.1, foldl_runStep_monthTotal]
  simp [initRunState, totalTime]

/-- C2 claims every TimeStep — no-product ones included — adds one
elapsed-time increment to its month bucket. In the code the no-product
branch updates the progress bars and `continue`s (line 105), skipping the
`month_times[month_key] += step_time` of line 182: a run with a single
no-product step of 3 seconds increments the overall progress counter once
but leaves `month_times` with no entry at all. -/
theorem C2_counterexample :
    (runAll [⟨2024, 1, 15, 3, StepBehaviour.noProduct⟩]).overall = 1 ∧
    (runAll [⟨2024, 1, 15, 3, StepBehaviour.noProduct⟩]).submitted = 0 ∧
    (runAll [⟨2024, 1, 15, 3, StepBehaviour.noProduct⟩]).ledgerLen = 0 ∧
    (runAll [⟨2024, 1, 15, 3, StepBehaviour.noProduct⟩]).monthTimes = [] := by
  decide

/-- C2 (amended): every planned TimeStep increments the overall progress
counter exactly once, whatever its outcome; a TimeStep whose search finds
products or whose processing raises adds exactly its elapsed time to the
month timing bucket, while a TimeStep whose search returns zero products
creates no job, appends no ledger entry, still contributes its single
progress increment, but adds NO month-timing increment (its `continue`
skips the accumulation of line 182). -/
theorem C2_progress_once_timing_skip (steps : List Step) (s : Step)
    (hs : s.behaviour = StepBehaviour.noProduct) :
    (runAll steps).overall = steps.length ∧
    totalTime (runAll steps).monthTimes =
      (steps.map (fun t =>
        if t.behaviour = StepBehaviour.noProduct then 0 else t.dur)).sum ∧
    (runAll [s]).submitted = 0 ∧
    (runAll [s]).ledgerLen = 0 ∧
    (runAll [s]).overall = 1 ∧
    (runAll [s]).monthTimes = [] := by
  refine ⟨runAll_overall steps, runAll_monthTotal steps, ?_, ?_,
    runAll_overall [s], ?_⟩
  · unfold runAll
    rw [(closeFinalDay_spec _).2.2.2.1]
    simp only [List.foldl_cons, List.foldl_nil]
    unfold runStep
    rw [stepPhase_noProduct _ s hs]
    exact (dayPhase_spec initRunState s).2.2.2.2.1
  · unfold runAll
    rw [(closeFinalDay_spec _).2.2.1]
    simp only [List.foldl_cons, List.foldl_nil]
    unfold runStep
    rw [stepPhase_noProduct _ s hs]
    exact (dayPhase_spec initRunState s).2.2.2.1
  · unfold runAll
    rw [(closeFinalDay_spec _).2.1]
    simp only [List.foldl_cons, List.foldl_nil]
    unfold runStep
    rw [stepPhase_noProduct _ s hs]
    exact (dayPhase_spec initRunState s).2.1

theorem C2_progress_once_timing_skip_witness :
    (⟨2024, 1, 15, 3, StepBehaviour.noProduct⟩ : Step).behaviour =
      StepBehaviour.noProduct ∧
    ((runAll [⟨2024, 1, 1, 5, StepBehaviour.completes 1⟩]).overall =
      [(⟨2024, 1, 1, 5, StepBehaviour.completes 1⟩ : Step)].length ∧
    totalTime (runAll [⟨2024, 1, 1, 5, StepBehaviour.completes 1⟩]).monthTimes =
      ([(⟨2024, 1, 1, 5, StepBehaviour.completes 1⟩ : Step)].map (fun t =>
        if t.behaviour = StepBehaviour.noProduct then 0 else t.dur)).sum ∧
    (runAll [⟨2024, 1, 15, 3, StepBehaviour.noProduct⟩]).submitted = 0 ∧
    (runAll [⟨2024, 1, 15, 3, StepBehaviour.noProduct⟩]).ledgerLen = 0 ∧
    (runAll [⟨2024, 1, 15, 3, StepBehaviour.noProduct⟩]).overall = 1 ∧
    (runAll [⟨2024, 1, 15, 3, StepBehaviour.noProduct⟩]).monthTimes = []) :=
  ⟨rfl, C2_progress_once_timing_skip
    [⟨2024, 1, 1, 5, StepBehaviour.completes 1⟩]
    ⟨2024, 1, 15, 3, StepBehaviour.noProduct⟩ rfl⟩

/-- Two consecutive days of January 2024: 10 seconds of successful work
on the 1st, 20 seconds on the 2nd. -/
def C3steps : List Step :=
  [⟨2024, 1, 1, 10, StepBehaviour.completes 0⟩,
   ⟨2024, 1, 2, 20, StepBehaviour.completes 0⟩]

/-- Sum of the day-bucket values whose day key lies in the given month. -/
def monthDaySum (l : List ((Nat × Nat × Nat) × Nat)) (mk : Nat × Nat) : Nat :=
  ((l.filter (fun e => monthOfDay e.1 = mk)).map Prod.snd).sum

/-- C3: the claim is the intended behaviour, but line 79 stores the
elapsed time of the day that just CLOSED under the key of the day that
just OPENED (`day_key` was recomputed for the current step before the
assignment), and the end-of-run assignment of line 192 then overwrites
that entry. On `C3steps`, `day_times` ends as `{2024-01-02: 20}`: day
2024-01-01 has no bucket, its 10 seconds appear in no day bucket, and
January's per-day sum (20) differs from January's month total (30). -/
theorem C3_day_misattribution :
    (runAll C3steps).dayTimes = [((2024, 1, 2), 20)] ∧
    getTime (runAll C3steps).dayTimes (2024, 1, 1) = 0 ∧
    getTime (runAll C3steps).monthTimes (2024, 1) = 30 ∧
    monthDaySum (runAll C3steps).dayTimes (2024, 1) = 20 ∧
    monthDaySum (runAll C3steps).dayTimes (2024, 1) ≠
      getTime (runAll C3steps).monthTimes (2024, 1) := by
  decide

/-- C8: once planning has succeeded no outcome aborts the run — the run
processes every planned TimeStep whatever mix of outcomes occurs (each of
the three `except` clauses of lines 172-177 contains its exception at the
TimeStep boundary) — and a transport error submits nothing, appends no
ledger entry, downloads nothing and triggers no resubmission, while the
step still receives its progress and timing accounting; error-class
statuses by contrast do resubmit: a step completing after `r` error-class
failures performs `1 + r` submissions. -/
theorem C8_errors_contained (steps : List Step) (st : RunState) (s : Step)
    (ht : s.behaviour = StepBehaviour.transportErr) :
    (runAll steps).overall = steps.length ∧
    (runStep st s).submitted = st.submitted ∧
    (runStep st s).ledgerLen = st.ledgerLen ∧
    (runStep st s).downloadedSteps = st.downloadedSteps ∧
    (runStep st s).overall = st.overall + 1 ∧
    totalTime (runStep st s).monthTimes = totalTime st.monthTimes + s.dur ∧
    (∀ st2 : RunState, ∀ s2 : Step, ∀ r : Nat,
      s2.behaviour = StepBehaviour.completes r →
      (runStep st2 s2).submitted = st2.submitted + 1 + r) := by
  refine ⟨runAll_overall steps, ?_, ?_, ?_, runStep_overall st s, ?_, ?_⟩
  · unfold runStep
    rw [stepPhase_transportErr _ s ht]
    exact (dayPhase_spec st s).2.2.2.2.1
  · unfold runStep
    rw [stepPhase_transportErr _ s ht]
    exact (dayPhase_spec st s).2.2.2.1
  · unfold runStep
    rw [stepPhase_transportErr _ s ht]
    exact (dayPhase_spec st s).2.2.2.2.2
  · rw [runStep_monthTotal st s, ht]
    simp
  · intro st2 s2 r h2
    unfold runStep
    rw [stepPhase_completes _ s2 r h2]
    show (dayPhase st2 s2).submitted + 1 + r = st2.submitted + 1 + r
    rw [(dayPhase_spec st2 s2).2.2.2.2.1]

theorem C8_errors_contained_witness :
    (⟨2024, 3, 5, 4, StepBehaviour.transportErr⟩ : Step).behaviour =
      StepBehaviour.transportErr ∧
    ((runAll [⟨2024, 3, 5, 4, StepBehaviour.transportErr⟩,
        ⟨2024, 3, 5, 6, StepBehaviour.completes 2⟩]).overall =
      [(⟨2024, 3, 5, 4, StepBehaviour.transportErr⟩ : Step),
        ⟨2024, 3, 5, 6, StepBehaviour.completes 2⟩].length ∧
    (runStep initRunState ⟨2024, 3, 5, 4, StepBehaviour.transportErr⟩).submitted =
      initRunState.submitted ∧
    (runStep initRunState ⟨2024, 3, 5, 4, StepBehaviour.transportErr⟩).ledgerLen =
      initRunState.ledgerLen ∧
    (runStep initRunState
        ⟨2024, 3, 5, 4, StepBehaviour.transportErr⟩).downloadedSteps =
      initRunState.downloadedSteps ∧
    (runStep initRunState ⟨2024, 3, 5, 4, StepBehaviour.transportErr⟩).overall =
      initRunState.overall + 1 ∧
    totalTime (runStep initRunState
        ⟨2024, 3, 5, 4, StepBehaviour.transportErr⟩).monthTimes =
      totalTime initRunState.monthTimes +
        (⟨2024, 3, 5, 4, StepBehaviour.transportErr⟩ : Step).dur ∧
    (∀ st2 : RunState, ∀ s2 : Step, ∀ r : Nat,
      s2.behaviour = StepBehaviour.completes r →
      (runStep st2 s2).submitted = st2.submitted + 1 + r)) :=
  ⟨rfl, C8_errors_contained
    [⟨2024, 3, 5, 4, StepBehaviour.transportErr⟩,
      ⟨2024, 3, 5, 6, StepBehaviour.completes 2⟩]
    initRunState ⟨2024, 3, 5, 4, StepBehaviour.transportErr⟩ rfl⟩

/-! ### Invocation prologue (source lines 13-22) -/

inductive Effect
  | checkDestFolder (missing : Bool)
  | makeDestFolder
  | authenticate
  | planSteps
  | processTimeStep (i : Nat)
  | report
deriving DecidableEq, Repr

/-- Ordered effect trace of a `download_netcdf` invocation: the
destination-folder existence check (line 15) with `os.makedirs` when it
is missing (line 16), then authentication against the remote service
(lines 19-22), then planning (lines 37-42), then the per-TimeStep
processing loop, then the summary report (lines 199-226). -/
def runTrace (destExists : Bool) (numSteps : Nat) : List Effect :=
  Effect.checkDestFolder (!destExists) ::
    ((if destExists then [] else [Effect.makeDestFolder]) ++
      [Effect.authenticate, Effect.planSteps] ++
      (List.range numSteps).map Effect.processTimeStep ++
      [Effect.report])

/-- C10: when the destination directory is missing it is created directly
after the existence check, before authentication and before any TimeStep
is processed; when it already exists nothing is created. Either way the
trace is total — a missing destination directory is never an error of the
run. -/
theorem C10_folder_created_first (n : Nat) :
    (∃ post : List Effect,
      runTrace false n =
        Effect.checkDestFolder true :: Effect.makeDestFolder :: post ∧
      Effect.authenticate ∈ post ∧
      ∀ i : Nat, i < n → Effect.processTimeStep i ∈ post) ∧
    Effect.makeDestFolder ∉ runTrace true n := by
  constructor
  · refine ⟨[Effect.authenticate, Effect.planSteps] ++
      (List.range n).map Effect.processTimeStep ++ [Effect.report], rfl, ?_, ?_⟩
    · simp
    · intro i hi
      have hmem : Effect.processTimeStep i ∈
          (List.range n).map Effect.processTimeStep :=
        List.mem_map.mpr ⟨i, List.mem_range.mpr hi, rfl⟩
      exact List.mem_append.mpr (Or.inl (List.mem_append.mpr (Or.inr hmem)))
  · simp [runTrace]

theorem C10_folder_created_first_witness :
    (∃ post : List Effect,
      runTrace false 2 =
        Effect.checkDestFolder true :: Effect.makeDestFolder :: post ∧
      Effect.authenticate ∈ post ∧
      ∀ i : Nat, i < 2 → Effect.processTimeStep i ∈ post) ∧
    Effect.makeDestFolder ∉ runTrace true 2 :=
  C10_folder_created_first 2

end FogDownload
